import Mathlib

/-!
Signalling relay (`src/index.js`).

A shallow embedding of the socket.io signalling relay: the two identity maps,
the five listeners registered inside `io.on('connection', ...)`, and the part
of the socket.io server (version 4, in-memory adapter) the listeners rely on:
`socket.id`, `socket.join`, `io.to(room).emit`.

Conventions of the embedding.

* A JavaScript value that reaches the relay in a message field is a `Val`:
  `undefined`, `null`, a string, an array, or any other value (`blob`).  A
  `blob` or an array carries its identity (`n`, `ref`): a number is identified
  by its value, an object by its reference, which is how a JavaScript `Map`
  or `Set` compares keys.  The flag of a `blob` records whether converting it
  to a string succeeds; for an object decoded from a message it fails exactly
  when the object has an own `toString` or `valueOf` property.  The elements
  of an array are `Atom`s; an array nested in an array is a `blob` there.
* A JavaScript `Map` is an insertion-ordered association list (`jsMapSet`,
  `jsMapFind`).
* The socket.io room table is a function from room key to the ordered list of
  member socket ids.  A socket joins the room named by its own id when it
  connects and leaves every room when it disconnects.  `socket.join` and
  `io.to` take an array as a list of rooms; `io.to` of an empty list of rooms
  reaches every open socket.
* An uncaught `TypeError` inside a listener is a `Fault`; nothing after the
  throwing statement runs.
* Of a `console.log` call only the conversion of a template literal to a
  string is kept, since it can throw; printing itself changes nothing.
-/

namespace Relay

/-- Values other than arrays. -/
inductive Atom where
  | undefined
  | null
  | str (s : String)
  | blob (n : Nat) (printable : Bool)
  deriving DecidableEq, Repr

/-- JavaScript values carried in message fields. -/
inductive Val where
  | undefined
  | null
  | str (s : String)
  | blob (n : Nat) (printable : Bool)
  | arr (ref : Nat) (items : List Atom)
  deriving DecidableEq, Repr

/-- The argument a listener is called with: absent, `null`, or an object given
by its own properties. -/
inductive Payload where
  | undefined
  | null
  | obj (fields : List (String × Val))
  deriving DecidableEq, Repr

/-- Uncaught exception raised by a listener. -/
inductive Fault where
  | typeError
  deriving DecidableEq, Repr

/-- One event delivered to one connection. -/
structure Delivery where
  recipient : String
  event : String
  payload : Payload
  deriving DecidableEq, Repr

/-- Property read `o.name` on an object literal: `undefined` when absent. -/
def field (fields : List (String × Val)) (name : String) : Val :=
  match fields with
  | [] => Val.undefined
  | (k, v) :: rest => if k = name then v else field rest name

/-- Whether `ToString` succeeds on an array element. -/
def Atom.toStringOk (a : Atom) : Bool :=
  match a with
  | Atom.blob _ printable => printable
  | _ => true

/-- Whether the template-literal conversion of a value to a string succeeds;
an array is joined from the strings of its elements. -/
def toStringOk (v : Val) : Bool :=
  match v with
  | Val.blob _ printable => printable
  | Val.arr _ items => items.all Atom.toStringOk
  | _ => true

/-- Rooms designated by the argument of `socket.join` / `io.to`: the elements
of an array, else the value itself. -/
def roomKeys (v : Val) : List Atom :=
  match v with
  | Val.undefined => [Atom.undefined]
  | Val.null => [Atom.null]
  | Val.str s => [Atom.str s]
  | Val.blob n printable => [Atom.blob n printable]
  | Val.arr _ items => items

/-- `Map.prototype.set`: overwrite in place when the key exists, else append. -/
def jsMapSet {κ ν : Type} [DecidableEq κ] (m : List (κ × ν)) (k : κ) (v : ν) :
    List (κ × ν) :=
  match m with
  | [] => [(k, v)]
  | (k', v') :: rest =>
    if k' = k then (k, v) :: rest else (k', v') :: jsMapSet rest k v

/-- Entry lookup underlying `Map.prototype.get` / `has`. -/
def jsMapFind {κ ν : Type} [DecidableEq κ] (m : List (κ × ν)) (k : κ) : Option ν :=
  match m with
  | [] => none
  | (k', v') :: rest => if k' = k then some v' else jsMapFind rest k

/-- `Set.prototype.add` on an ordered member list. -/
def setAdd (members : List String) (id : String) : List String :=
  if id ∈ members then members else members ++ [id]

/-- Relay process state: the two module-level maps of `index.js`, the open
connections, and the socket.io room table. -/
structure ServerState where
  emailToSocketIdMap : List (Val × String)
  socketIdToEmailMap : List (String × Val)
  sockets : List String
  rooms : Atom → List String

/-- State right after `new Server(8000, ...)` and the two `new Map()`. -/
def init : ServerState :=
  { emailToSocketIdMap := [], socketIdToEmailMap := [], sockets := [], rooms := fun _ => [] }

/-- `emailToSocketIdMap.get(e)` as JavaScript returns it. -/
def emailToSocketIdMap_get (st : ServerState) (e : Val) : Val :=
  match jsMapFind st.emailToSocketIdMap e with
  | some s => Val.str s
  | none => Val.undefined

/-- `socketIdToEmailMap.get(s)` as JavaScript returns it. -/
def socketIdToEmailMap_get (st : ServerState) (s : String) : Val :=
  match jsMapFind st.socketIdToEmailMap s with
  | some e => e
  | none => Val.undefined

/-- `socket.join(room)` for the socket with id `id`: the socket is added to
every room that `room` designates. -/
def socketJoin (rooms : Atom → List String) (room : Val) (id : String) : Atom → List String :=
  fun r => if r ∈ roomKeys room then setAdd (rooms r) id else rooms r

/-- Room table after the socket with id `id` has left every room. -/
def leaveAll (rooms : Atom → List String) (id : String) : Atom → List String :=
  fun r => (rooms r).filter (fun m => decide (m ≠ id))

/-- Sockets reached by `io.to(target)`: every open socket when `target`
designates no room at all, else the members of the designated rooms, each
socket once. -/
def ioTo (st : ServerState) (target : Val) : List String :=
  match roomKeys target with
  | [] => st.sockets
  | k :: ks => (k :: ks).foldl (fun seen key => (st.rooms key).foldl setAdd seen) []

/-- `io.to(target).emit(event, payload)`: one delivery per socket reached. -/
def ioToEmit (st : ServerState) (target : Val) (event : String) (payload : Payload) :
    List Delivery :=
  (ioTo st target).map (fun m => { recipient := m, event := event, payload := payload })

/-- Listener `socket.on('room:join', (data) => ...)` of the socket `socketId`. -/
def onRoomJoin (st : ServerState) (socketId : String) (data : Payload) :
    Except Fault (ServerState × List Delivery) :=
  match data with
  | Payload.undefined => Except.error Fault.typeError
  | Payload.null => Except.error Fault.typeError
  | Payload.obj fields =>
    let email := field fields "email"
    let room := field fields "room"
    let st1 : ServerState :=
      { st with
        emailToSocketIdMap := jsMapSet st.emailToSocketIdMap email socketId
        socketIdToEmailMap := jsMapSet st.socketIdToEmailMap socketId email
        rooms := socketJoin st.rooms room socketId }
    Except.ok (st1,
      ioToEmit st1 room "user:joined"
          (Payload.obj [("email", email), ("id", Val.str socketId)])
        ++ ioToEmit st1 (Val.str socketId) "room:join" data)

/-- Listener `socket.on('user:call', ((to, offer)) => ...)`: destructure, log
with the template literal on `to`, emit `incoming:call`. -/
def onUserCall (st : ServerState) (socketId : String) (data : Payload) :
    Except Fault (ServerState × List Delivery) :=
  match data with
  | Payload.undefined => Except.error Fault.typeError
  | Payload.null => Except.error Fault.typeError
  | Payload.obj fields =>
    let to' := field fields "to"
    let offer := field fields "offer"
    if toStringOk to' then
      Except.ok (st,
        ioToEmit st to' "incoming:call" (Payload.obj [("from", Val.str socketId), ("offer", offer)]))
    else Except.error Fault.typeError

/-- Listener `socket.on('call:accepted', ((to, ans)) => ...)`: destructure, log
with the template literal on `to`, emit `call:accepted`. -/
def onCallAccepted (st : ServerState) (socketId : String) (data : Payload) :
    Except Fault (ServerState × List Delivery) :=
  match data with
  | Payload.undefined => Except.error Fault.typeError
  | Payload.null => Except.error Fault.typeError
  | Payload.obj fields =>
    let to' := field fields "to"
    let ans := field fields "ans"
    if toStringOk to' then
      Except.ok (st,
        ioToEmit st to' "call:accepted" (Payload.obj [("from", Val.str socketId), ("ans", ans)]))
    else Except.error Fault.typeError

/-- Listener `socket.on('peer:nego:needed', ((to, offer)) => ...)`. -/
def onPeerNegoNeeded (st : ServerState) (socketId : String) (data : Payload) :
    Except Fault (ServerState × List Delivery) :=
  match data with
  | Payload.undefined => Except.error Fault.typeError
  | Payload.null => Except.error Fault.typeError
  | Payload.obj fields =>
    let to' := field fields "to"
    let offer := field fields "offer"
    Except.ok (st,
      ioToEmit st to' "peer:nego:needed" (Payload.obj [("from", Val.str socketId), ("offer", offer)]))

/-- Listener `socket.on('peer:nego:done', ((to, ans)) => ...)`. -/
def onPeerNegoDone (st : ServerState) (socketId : String) (data : Payload) :
    Except Fault (ServerState × List Delivery) :=
  match data with
  | Payload.undefined => Except.error Fault.typeError
  | Payload.null => Except.error Fault.typeError
  | Payload.obj fields =>
    let to' := field fields "to"
    let ans := field fields "ans"
    Except.ok (st,
      ioToEmit st to' "peer:nego:final" (Payload.obj [("from", Val.str socketId), ("ans", ans)]))

/-- Dispatch of an inbound event on the socket `socketId` to the listener
registered for it; an event with no listener is ignored. -/
def onEvent (st : ServerState) (socketId : String) (event : String) (data : Payload) :
    Except Fault (ServerState × List Delivery) :=
  if event = "room:join" then onRoomJoin st socketId data
  else if event = "user:call" then onUserCall st socketId data
  else if event = "call:accepted" then onCallAccepted st socketId data
  else if event = "peer:nego:needed" then onPeerNegoNeeded st socketId data
  else if event = "peer:nego:done" then onPeerNegoDone st socketId data
  else Except.ok (st, [])

/-- What the relay process can observe. -/
inductive Input where
  | connect (id : String)
  | message (id : String) (event : String) (data : Payload)
  | disconnect (id : String)
  deriving DecidableEq, Repr

/-- One transition of the relay.  `connect id` runs the `'connection'` callback
for a new socket whose id is `id`; a message is handled only on an open
socket; `disconnect` runs no repository code (the listener is commented out),
so only socket.io's own bookkeeping changes. -/
def step (st : ServerState) (i : Input) : Except Fault (ServerState × List Delivery) :=
  match i with
  | Input.connect id =>
    if id ∈ st.sockets then Except.ok (st, [])
    else Except.ok
      ({ st with sockets := st.sockets ++ [id], rooms := socketJoin st.rooms (Val.str id) id }, [])
  | Input.message id event data =>
    if id ∈ st.sockets then onEvent st id event data else Except.ok (st, [])
  | Input.disconnect id =>
    Except.ok
      ({ st with
          sockets := st.sockets.filter (fun m => decide (m ≠ id))
          rooms := leaveAll st.rooms id }, [])

/-- Run a sequence of inputs; the process stops at the first uncaught fault. -/
def run (st : ServerState) (inputs : List Input) : Except Fault ServerState :=
  match inputs with
  | [] => Except.ok st
  | i :: rest =>
    match step st i with
    | Except.ok (st', _) => run st' rest
    | Except.error e => Except.error e

/-- State after a sequence of inputs, staying put once a fault has occurred. -/
def stateAfter (st : ServerState) (inputs : List Input) : ServerState :=
  match run st inputs with
  | Except.ok st' => st'
  | Except.error _ => st

/-- Events delivered by a transition, `none` when the listener threw. -/
def delivered (r : Except Fault (ServerState × List Delivery)) : Option (List Delivery) :=
  match r with
  | Except.ok (_, out) => some out
  | Except.error _ => none

/-- States the relay can be in. -/
inductive Reachable : ServerState → Prop where
  | init : Reachable init
  | step {st st' : ServerState} {i : Input} {out : List Delivery} :
      Reachable st → step st i = Except.ok (st', out) → Reachable st'

/-! ## Definitions used to state the properties -/

/-- Every open socket sits in the room named by its own id, member lists are
duplicate-free, and only open sockets are members. -/
def RoomsOk (st : ServerState) : Prop :=
  (∀ x ∈ st.sockets, x ∈ st.rooms (Atom.str x)) ∧
  (∀ r, (st.rooms r).Nodup) ∧
  (∀ r, ∀ m ∈ st.rooms r, m ∈ st.sockets)

/-- One open connection `A`. -/
def exAlone : ServerState := stateAfter init [Input.connect "A"]

/-- Connections `X`, `Y`, `Z` are open and `Z` has joined the room named `"X"`. -/
def exShadow : ServerState :=
  stateAfter init
    [Input.connect "X", Input.connect "Y", Input.connect "Z",
     Input.message "Z" "room:join" (Payload.obj [("email", Val.str "z@x.io"), ("room", Val.str "X")])]

/-- Inputs after which `A`, `B`, `Y` are open and `A` and `B` have joined room `"r1"`. -/
def exRoomTrace : List Input :=
  [Input.connect "A", Input.connect "B", Input.connect "Y",
   Input.message "A" "room:join" (Payload.obj [("email", Val.str "a@x.io"), ("room", Val.str "r1")]),
   Input.message "B" "room:join" (Payload.obj [("email", Val.str "b@x.io"), ("room", Val.str "r1")])]

/-- Connections `A`, `B`, `Y` are open; `A` and `B` have joined room `"r1"`. -/
def exRoom : ServerState := stateAfter init exRoomTrace

/-- Connections `X` and `Y` are open, nothing else has happened. -/
def exPair : ServerState := stateAfter init [Input.connect "X", Input.connect "Y"]

/-- An input that is a `room:join` sent by `c` or carrying the email `e`. -/
def rejoins (c : String) (e : Val) (i : Input) : Bool :=
  match i with
  | Input.message id event (Payload.obj fields) =>
    decide (event = "room:join" ∧ (id = c ∨ field fields "email" = e))
  | _ => false

/-- An input that is a `room:join` whose `room` designates the room `k`. -/
def namesRoom (k : Atom) (i : Input) : Bool :=
  match i with
  | Input.message _ event (Payload.obj fields) =>
    decide (event = "room:join" ∧ k ∈ roomKeys (field fields "room"))
  | _ => false

/-- The `room:join` message carrying `(email, room)`. -/
def joinPayload (email room : Val) : Payload :=
  Payload.obj [("email", email), ("room", room)]

/-- A sequence of `room:join` messages, one per `(connection, email, room)`. -/
def joinInputs (js : List (String × Val × Val)) : List Input :=
  js.map (fun j => Input.message j.1 "room:join" (joinPayload j.2.1 j.2.2))

/-- Connection `C` joins as `"old@x.io"` and then as `"new@x.io"`. -/
def exRename : ServerState :=
  stateAfter init
    (Input.connect "C" ::
      joinInputs [("C", Val.str "old@x.io", Val.str "r1"), ("C", Val.str "new@x.io", Val.str "r1")])

/-- Connections `C1` and then `C2` join with the same email `"e@x.io"`. -/
def exShared : ServerState :=
  stateAfter init
    (Input.connect "C1" :: Input.connect "C2" ::
      joinInputs [("C1", Val.str "e@x.io", Val.str "r1"), ("C2", Val.str "e@x.io", Val.str "r1")])

/-- Both maps hold exactly the pairs of the join history `hist`. -/
def MapsHold (st : ServerState) (hist : List (String × Val × Val)) : Prop :=
  (∀ e s, jsMapFind st.emailToSocketIdMap e = some s ↔ ∃ r, (s, e, r) ∈ hist) ∧
  (∀ s e, jsMapFind st.socketIdToEmailMap s = some e ↔ ∃ r, (s, e, r) ∈ hist)

/-- A sequence of `room:join` messages, one per `(connection, object payload)`. -/
def joinMessages (js : List (String × List (String × Val))) : List Input :=
  js.map (fun j => Input.message j.1 "room:join" (Payload.obj j.2))

/-- Membership of every room when the open connections are `ids` and the
connections `joined` have each sent a `room:join` for room `r`: a socket is in
a room exactly when it is open and the room is its own or is `r` and it joined. -/
def RoomsAre (r : Atom) (joined : List String) (st : ServerState) : Prop :=
  ∀ k m, m ∈ st.rooms k ↔ m ∈ st.sockets ∧ (k = Atom.str m ∨ (k = r ∧ m ∈ joined))

end Relay

namespace Relay

/-! ## JavaScript `Map` and `Set` facts -/

theorem jsMapFind_jsMapSet {κ ν : Type} [DecidableEq κ] (m : List (κ × ν)) (k k' : κ) (v : ν) :
    jsMapFind (jsMapSet m k v) k' = if k = k' then some v else jsMapFind m k' := by
  induction m with
  | nil =>
    simp only [jsMapSet, jsMapFind]
  | cons p rest ih =>
    obtain ⟨a, b⟩ := p
    by_cases hak : a = k
    · subst hak
      by_cases hk : a = k' <;> simp [jsMapSet, jsMapFind, hk]
    · by_cases hk : k = k'
      · subst hk
        simp [jsMapSet, jsMapFind, hak, ih]
      · simp [jsMapSet, jsMapFind, hak, ih, hk]

theorem jsMapSet_jsMapSet {κ ν : Type} [DecidableEq κ] (m : List (κ × ν)) (k : κ) (v : ν) :
    jsMapSet (jsMapSet m k v) k v = jsMapSet m k v := by
  induction m with
  | nil => simp [jsMapSet]
  | cons p rest ih =>
    obtain ⟨a, b⟩ := p
    by_cases hak : a = k <;> simp [jsMapSet, hak, ih]

theorem mem_setAdd (l : List String) (id x : String) :
    x ∈ setAdd l id ↔ x ∈ l ∨ x = id := by
  unfold setAdd
  split
  · constructor
    · intro h; exact Or.inl h
    · rintro (h | h)
      · exact h
      · subst h; assumption
  · simp

theorem nodup_setAdd (l : List String) (id : String) (h : l.Nodup) : (setAdd l id).Nodup := by
  unfold setAdd
  split
  · exact h
  · rename_i hid
    rw [List.nodup_append]
    refine ⟨h, List.nodup_singleton id, ?_⟩
    intro a ha hb
    simp only [List.mem_singleton] at hb
    subst hb
    exact hid ha

theorem setAdd_setAdd (l : List String) (id : String) : setAdd (setAdd l id) id = setAdd l id := by
  have h : id ∈ setAdd l id := (mem_setAdd l id id).2 (Or.inr rfl)
  show (if id ∈ setAdd l id then setAdd l id else setAdd l id ++ [id]) = setAdd l id
  rw [if_pos h]

theorem eq_singleton_of_nodup {l : List String} {x : String} (hnd : l.Nodup) (hx : x ∈ l)
    (hall : ∀ z ∈ l, z = x) : l = [x] := by
  match l, hnd, hx, hall with
  | [a], _, hx, _ =>
    simp only [List.mem_singleton] at hx
    rw [hx]
  | a :: b :: rest, hnd, _, hall =>
    exfalso
    have ha : a = x := hall a (by simp)
    have hb : b = x := hall b (by simp)
    rw [List.nodup_cons] at hnd
    apply hnd.1
    rw [ha, ← hb]
    simp

theorem foldl_setAdd (l : List String) : ∀ acc : List String, (acc ++ l).Nodup →
    l.foldl setAdd acc = acc ++ l := by
  induction l with
  | nil => intro acc _; simp
  | cons a rest ih =>
    intro acc h
    have ha : a ∉ acc := by
      intro hmem
      rw [List.nodup_append] at h
      exact h.2.2 hmem (by simp)
    have h' : ((acc ++ [a]) ++ rest).Nodup := by simpa using h
    rw [List.foldl_cons]
    have hs : setAdd acc a = acc ++ [a] := by
      unfold setAdd
      rw [if_neg ha]
    rw [hs, ih _ h']
    simp

/-! ## Invariant of the room table -/

theorem mem_socketJoin (rooms : Atom → List String) (v : Val) (id m : String) (r : Atom) :
    m ∈ socketJoin rooms v id r ↔ m ∈ rooms r ∨ (m = id ∧ r ∈ roomKeys v) := by
  unfold socketJoin
  split
  · rename_i hr
    rw [mem_setAdd]
    constructor
    · rintro (h | h)
      · exact Or.inl h
      · exact Or.inr ⟨h, hr⟩
    · rintro (h | h)
      · exact Or.inl h
      · exact Or.inr h.1
  · rename_i hr
    constructor
    · intro h; exact Or.inl h
    · rintro (h | h)
      · exact h
      · exact absurd h.2 hr

theorem nodup_socketJoin (rooms : Atom → List String) (v : Val) (id : String) (r : Atom)
    (h : (rooms r).Nodup) : (socketJoin rooms v id r).Nodup := by
  unfold socketJoin
  split
  · exact nodup_setAdd _ _ h
  · exact h

theorem roomsOk_init : RoomsOk init := by
  refine ⟨?_, ?_, ?_⟩ <;> simp [init]

theorem roomsOk_socketJoin {st : ServerState} (h : RoomsOk st) (room : Val) (id : String)
    (hid : id ∈ st.sockets) (em : List (Val × String)) (sm : List (String × Val)) :
    RoomsOk { st with emailToSocketIdMap := em, socketIdToEmailMap := sm,
                      rooms := socketJoin st.rooms room id } := by
  obtain ⟨h1, h2, h3⟩ := h
  refine ⟨?_, ?_, ?_⟩
  · intro x hx
    exact (mem_socketJoin _ _ _ _ _).2 (Or.inl (h1 x hx))
  · intro r
    exact nodup_socketJoin _ _ _ _ (h2 r)
  · intro r m hm
    rcases (mem_socketJoin _ _ _ _ _).1 hm with h | h
    · exact h3 r m h
    · rw [h.1]; exact hid

/-- Effect of a listener on the state: none, or the writes of `room:join`. -/
theorem onEvent_state {st st' : ServerState} {id event : String} {data : Payload}
    {out : List Delivery} (hs : onEvent st id event data = Except.ok (st', out)) :
    st' = st ∨
    (∃ fields, event = "room:join" ∧ data = Payload.obj fields ∧
      st' = { st with
        emailToSocketIdMap := jsMapSet st.emailToSocketIdMap (field fields "email") id
        socketIdToEmailMap := jsMapSet st.socketIdToEmailMap id (field fields "email")
        rooms := socketJoin st.rooms (field fields "room") id }) := by
  unfold onEvent at hs
  split at hs
  · rename_i hev
    unfold onRoomJoin at hs
    cases data with
    | undefined => simp at hs
    | null => simp at hs
    | obj fields =>
      simp only [Except.ok.injEq, Prod.mk.injEq] at hs
      exact Or.inr ⟨fields, hev, rfl, hs.1.symm⟩
  · left
    split at hs
    · unfold onUserCall at hs
      cases data with
      | undefined => simp at hs
      | null => simp at hs
      | obj fields =>
        simp only at hs
        split at hs
        · simp only [Except.ok.injEq, Prod.mk.injEq] at hs
          exact hs.1.symm
        · simp at hs
    · split at hs
      · unfold onCallAccepted at hs
        cases data with
        | undefined => simp at hs
        | null => simp at hs
        | obj fields =>
          simp only at hs
          split at hs
          · simp only [Except.ok.injEq, Prod.mk.injEq] at hs
            exact hs.1.symm
          · simp at hs
      · split at hs
        · unfold onPeerNegoNeeded at hs
          cases data with
          | undefined => simp at hs
          | null => simp at hs
          | obj fields =>
            simp only [Except.ok.injEq, Prod.mk.injEq] at hs
            exact hs.1.symm
        · split at hs
          · unfold onPeerNegoDone at hs
            cases data with
            | undefined => simp at hs
            | null => simp at hs
            | obj fields =>
              simp only [Except.ok.injEq, Prod.mk.injEq] at hs
              exact hs.1.symm
          · simp only [Except.ok.injEq, Prod.mk.injEq] at hs
            exact hs.1.symm

theorem roomsOk_step {st st' : ServerState} {i : Input} {out : List Delivery}
    (h : RoomsOk st) (hs : step st i = Except.ok (st', out)) : RoomsOk st' := by
  cases i with
  | connect id =>
    simp only [step] at hs
    split at hs
    · simp only [Except.ok.injEq, Prod.mk.injEq] at hs
      rw [← hs.1]; exact h
    · rename_i hid
      simp only [Except.ok.injEq, Prod.mk.injEq] at hs
      rw [← hs.1]
      obtain ⟨h1, h2, h3⟩ := h
      refine ⟨?_, ?_, ?_⟩
      · intro x hx
        change x ∈ st.sockets ++ [id] at hx
        apply (mem_socketJoin _ _ _ _ _).2
        rcases List.mem_append.1 hx with hx | hx
        · exact Or.inl (h1 x hx)
        · simp only [List.mem_singleton] at hx
          subst hx
          exact Or.inr ⟨rfl, by simp [roomKeys]⟩
      · intro r
        exact nodup_socketJoin _ _ _ _ (h2 r)
      · intro r m hm
        show m ∈ st.sockets ++ [id]
        rcases (mem_socketJoin _ _ _ _ _).1 hm with h | h
        · exact List.mem_append.2 (Or.inl (h3 r m h))
        · rw [h.1]; simp
  | message id event data =>
    simp only [step] at hs
    split at hs
    · rename_i hid
      rcases onEvent_state hs with h' | ⟨fields, _, _, h'⟩
      · rw [h']; exact h
      · rw [h']; exact roomsOk_socketJoin h _ _ hid _ _
    · simp only [Except.ok.injEq, Prod.mk.injEq] at hs
      rw [← hs.1]; exact h
  | disconnect id =>
    simp only [step, Except.ok.injEq, Prod.mk.injEq] at hs
    rw [← hs.1]
    obtain ⟨h1, h2, h3⟩ := h
    refine ⟨?_, ?_, ?_⟩
    · intro x hx
      change x ∈ st.sockets.filter (fun m => decide (m ≠ id)) at hx
      show x ∈ leaveAll st.rooms id (Atom.str x)
      unfold leaveAll
      rw [List.mem_filter] at hx ⊢
      exact ⟨h1 x hx.1, hx.2⟩
    · intro r
      show (leaveAll st.rooms id r).Nodup
      unfold leaveAll
      exact (h2 r).filter _
    · intro r m hm
      show m ∈ st.sockets.filter (fun m => decide (m ≠ id))
      change m ∈ leaveAll st.rooms id r at hm
      unfold leaveAll at hm
      rw [List.mem_filter] at hm ⊢
      exact ⟨h3 r m hm.1, hm.2⟩

theorem Reachable.roomsOk {st : ServerState} (h : Reachable st) : RoomsOk st := by
  induction h with
  | init => exact roomsOk_init
  | step _ hs ih => exact roomsOk_step ih hs

theorem reachable_run {st st' : ServerState} (inputs : List Input) (h : Reachable st)
    (hr : run st inputs = Except.ok st') : Reachable st' := by
  induction inputs generalizing st with
  | nil =>
    simp only [run, Except.ok.injEq] at hr
    rw [← hr]; exact h
  | cons i rest ih =>
    simp only [run] at hr
    split at hr
    · rename_i st1 out hstep
      exact ih (Reachable.step h hstep) hr
    · simp at hr

theorem reachable_stateAfter {st : ServerState} (inputs : List Input) (h : Reachable st) :
    Reachable (stateAfter st inputs) := by
  unfold stateAfter
  split
  · rename_i st' hr
    exact reachable_run inputs h hr
  · exact h

/-! ## Sockets reached by `io.to` -/

theorem ioTo_single {st : ServerState} (h : RoomsOk st) (v : Val) (k : Atom)
    (hk : roomKeys v = [k]) : ioTo st v = st.rooms k := by
  unfold ioTo
  rw [hk]
  simp only [List.foldl_cons, List.foldl_nil]
  rw [foldl_setAdd _ [] (by simpa using h.2.1 k)]
  simp

theorem ioTo_none {st : ServerState} {v : Val} (hne : roomKeys v ≠ [])
    (hempty : ∀ k ∈ roomKeys v, st.rooms k = []) : ioTo st v = [] := by
  unfold ioTo
  have key : ∀ ks : List Atom, (∀ k ∈ ks, st.rooms k = []) →
      ks.foldl (fun seen key => (st.rooms key).foldl setAdd seen) [] = [] := by
    intro ks
    induction ks with
    | nil => intro _; rfl
    | cons a rest ih =>
      intro h
      rw [List.foldl_cons, h a (by simp)]
      exact ih (fun k hk => h k (by simp [hk]))
  cases hks : roomKeys v with
  | nil => exact absurd hks hne
  | cons k ks =>
    simp only
    apply key
    rw [← hks]; exact hempty

theorem own_room_singleton {st : ServerState} {X : String} (hr : Reachable st)
    (hX : X ∈ st.sockets) (hroom : ∀ z ∈ st.rooms (Atom.str X), z = X) :
    st.rooms (Atom.str X) = [X] :=
  eq_singleton_of_nodup (hr.roomsOk.2.1 _) (hr.roomsOk.1 X hX) hroom

/-! ## Transitions of the individual listeners -/

theorem step_user_call (st : ServerState) (id : String) (fields : List (String × Val))
    (hid : id ∈ st.sockets) :
    step st (Input.message id "user:call" (Payload.obj fields)) =
      if toStringOk (field fields "to") then
        Except.ok (st, ioToEmit st (field fields "to") "incoming:call"
          (Payload.obj [("from", Val.str id), ("offer", field fields "offer")]))
      else Except.error Fault.typeError := by
  simp [step, hid, onEvent, onUserCall]

theorem step_call_accepted (st : ServerState) (id : String) (fields : List (String × Val))
    (hid : id ∈ st.sockets) :
    step st (Input.message id "call:accepted" (Payload.obj fields)) =
      if toStringOk (field fields "to") then
        Except.ok (st, ioToEmit st (field fields "to") "call:accepted"
          (Payload.obj [("from", Val.str id), ("ans", field fields "ans")]))
      else Except.error Fault.typeError := by
  simp [step, hid, onEvent, onCallAccepted]

theorem step_nego_needed (st : ServerState) (id : String) (fields : List (String × Val))
    (hid : id ∈ st.sockets) :
    step st (Input.message id "peer:nego:needed" (Payload.obj fields)) =
      Except.ok (st, ioToEmit st (field fields "to") "peer:nego:needed"
        (Payload.obj [("from", Val.str id), ("offer", field fields "offer")])) := by
  simp [step, hid, onEvent, onPeerNegoNeeded]

theorem step_nego_done (st : ServerState) (id : String) (fields : List (String × Val))
    (hid : id ∈ st.sockets) :
    step st (Input.message id "peer:nego:done" (Payload.obj fields)) =
      Except.ok (st, ioToEmit st (field fields "to") "peer:nego:final"
        (Payload.obj [("from", Val.str id), ("ans", field fields "ans")])) := by
  simp [step, hid, onEvent, onPeerNegoDone]

theorem step_room_join (st : ServerState) (id : String) (fields : List (String × Val))
    (hid : id ∈ st.sockets) :
    step st (Input.message id "room:join" (Payload.obj fields)) =
      onRoomJoin st id (Payload.obj fields) := by
  simp [step, hid, onEvent]

/-- State written by the `room:join` listener. -/
theorem reachable_after_join {st : ServerState} (hr : Reachable st) (id : String)
    (fields : List (String × Val)) (hid : id ∈ st.sockets) :
    Reachable { st with
      emailToSocketIdMap := jsMapSet st.emailToSocketIdMap (field fields "email") id
      socketIdToEmailMap := jsMapSet st.socketIdToEmailMap id (field fields "email")
      rooms := socketJoin st.rooms (field fields "room") id } := by
  have h := step_room_join st id fields hid
  simp only [onRoomJoin] at h
  exact Reachable.step hr h

/-! ## C1: routing of `user:call` -/

/-- C1 (as stated, refuted): in a reachable state where `Z` has joined the room
named by `X`'s id, a `user:call` from `Y` addressed to `X` is delivered to both
`X` and `Z`. -/
theorem user_call_also_reaches_room_joiner :
    Reachable exShadow ∧ "X" ∈ exShadow.sockets ∧ "Y" ∈ exShadow.sockets ∧
    delivered (step exShadow (Input.message "Y" "user:call"
        (Payload.obj [("to", Val.str "X"), ("offer", Val.blob 1 true)]))) =
      some [⟨"X", "incoming:call", Payload.obj [("from", Val.str "Y"), ("offer", Val.blob 1 true)]⟩,
            ⟨"Z", "incoming:call", Payload.obj [("from", Val.str "Y"), ("offer", Val.blob 1 true)]⟩] :=
  ⟨reachable_stateAfter _ Reachable.init, by decide, by decide, by decide⟩

/-- C1 (amended): in every reachable state, for open connections `X` and `Y`,
`user:call (to: X, offer: O)` from `Y` delivers `incoming:call (from: Y, offer: O)`
to exactly the members of the socket.io room named `X`, leaves the state
unchanged, `X` is among those members, and when no other connection has joined
a room named `X` the only delivery is the one to `X`. -/
theorem user_call_delivered_to_room_of_addressee (st : ServerState) (X Y : String) (O : Val)
    (hr : Reachable st) (hX : X ∈ st.sockets) (hY : Y ∈ st.sockets) :
    step st (Input.message Y "user:call" (Payload.obj [("to", Val.str X), ("offer", O)])) =
      Except.ok (st, (st.rooms (Atom.str X)).map (fun m =>
        ⟨m, "incoming:call", Payload.obj [("from", Val.str Y), ("offer", O)]⟩)) ∧
    X ∈ st.rooms (Atom.str X) ∧
    ((∀ z ∈ st.rooms (Atom.str X), z = X) →
      step st (Input.message Y "user:call" (Payload.obj [("to", Val.str X), ("offer", O)])) =
        Except.ok (st,
          [⟨X, "incoming:call", Payload.obj [("from", Val.str Y), ("offer", O)]⟩])) := by
  have h := step_user_call st Y [("to", Val.str X), ("offer", O)] hY
  have hf : field [("to", Val.str X), ("offer", O)] "to" = Val.str X := by simp [field]
  have hf2 : field [("to", Val.str X), ("offer", O)] "offer" = O := by simp [field]
  have hio : ioTo st (Val.str X) = st.rooms (Atom.str X) :=
    ioTo_single hr.roomsOk _ _ rfl
  rw [hf, hf2] at h
  simp only [toStringOk, if_true, ioToEmit, hio] at h
  refine ⟨h, hr.roomsOk.1 X hX, ?_⟩
  intro hroom
  rw [h]
  simp [own_room_singleton hr hX hroom]

/-- Witness for C1 (amended): `Y` calls `X` in the state with only `X` and `Y`
connected. -/
theorem user_call_delivered_to_room_of_addressee_witness :
    step exPair (Input.message "Y" "user:call"
        (Payload.obj [("to", Val.str "X"), ("offer", Val.blob 1 true)])) =
      Except.ok (exPair, (exPair.rooms (Atom.str "X")).map (fun m =>
        ⟨m, "incoming:call", Payload.obj [("from", Val.str "Y"), ("offer", Val.blob 1 true)]⟩)) ∧
    "X" ∈ exPair.rooms (Atom.str "X") ∧
    ((∀ z ∈ exPair.rooms (Atom.str "X"), z = "X") →
      step exPair (Input.message "Y" "user:call"
          (Payload.obj [("to", Val.str "X"), ("offer", Val.blob 1 true)])) =
        Except.ok (exPair,
          [⟨"X", "incoming:call", Payload.obj [("from", Val.str "Y"), ("offer", Val.blob 1 true)]⟩])) :=
  user_call_delivered_to_room_of_addressee exPair "X" "Y" (Val.blob 1 true)
    (reachable_stateAfter _ Reachable.init) (by decide) (by decide)

/-! ## C5: the peer-to-peer dispatch table -/

/-- C5: for an open sender `Y`, an open addressee `X` whose id names no room
joined by anyone else, and any object payload whose `to` is `X` (extra fields
such as `from` allowed), each of the four peer-to-peer kinds emits exactly one
event, to `X`: `user:call` gives `incoming:call (from, offer)`, `call:accepted`
gives `call:accepted (from, ans)`, `peer:nego:needed` gives
`peer:nego:needed (from, offer)`, `peer:nego:done` gives `peer:nego:final (from, ans)`;
`from` is `Y`'s id, the offer / ans value is the inbound one, and the emitted
object has exactly those two fields. -/
theorem peer_dispatch_table (st : ServerState) (X Y : String) (fields : List (String × Val))
    (hr : Reachable st) (hX : X ∈ st.sockets) (hY : Y ∈ st.sockets)
    (hroom : ∀ z ∈ st.rooms (Atom.str X), z = X) (hto : field fields "to" = Val.str X) :
    step st (Input.message Y "user:call" (Payload.obj fields)) =
        Except.ok (st, [⟨X, "incoming:call",
          Payload.obj [("from", Val.str Y), ("offer", field fields "offer")]⟩]) ∧
    step st (Input.message Y "call:accepted" (Payload.obj fields)) =
        Except.ok (st, [⟨X, "call:accepted",
          Payload.obj [("from", Val.str Y), ("ans", field fields "ans")]⟩]) ∧
    step st (Input.message Y "peer:nego:needed" (Payload.obj fields)) =
        Except.ok (st, [⟨X, "peer:nego:needed",
          Payload.obj [("from", Val.str Y), ("offer", field fields "offer")]⟩]) ∧
    step st (Input.message Y "peer:nego:done" (Payload.obj fields)) =
        Except.ok (st, [⟨X, "peer:nego:final",
          Payload.obj [("from", Val.str Y), ("ans", field fields "ans")]⟩]) := by
  have hio : ioTo st (Val.str X) = [X] := by
    rw [ioTo_single hr.roomsOk (Val.str X) (Atom.str X) rfl]
    exact own_room_singleton hr hX hroom
  rw [step_user_call st Y fields hY, step_call_accepted st Y fields hY,
    step_nego_needed st Y fields hY, step_nego_done st Y fields hY, hto]
  simp [toStringOk, ioToEmit, hio]

/-- Witness for C5: `Y` addresses `X` with a payload that carries a forged
`from` field. -/
theorem peer_dispatch_table_witness :
    step exPair (Input.message "Y" "user:call" (Payload.obj
        [("from", Val.str "X"), ("to", Val.str "X"), ("offer", Val.blob 3 true)])) =
      Except.ok (exPair, [⟨"X", "incoming:call",
        Payload.obj [("from", Val.str "Y"), ("offer", Val.blob 3 true)]⟩]) :=
  (peer_dispatch_table exPair "X" "Y"
    [("from", Val.str "X"), ("to", Val.str "X"), ("offer", Val.blob 3 true)]
    (reachable_stateAfter _ Reachable.init) (by decide) (by decide) (by decide) (by decide)).1

/-! ## C8: connectivity candidates -/

/-- C8 (code evaluated at the failing input): with `X` and `Y` connected, the
message the client emits for a candidate, `ice-candidate (to: X, candidate: C)`
sent by `Y`, finds no listener on the relay and nothing is delivered to `X`
or to anyone else. -/
theorem ice_candidate_not_relayed :
    "X" ∈ exPair.sockets ∧ "Y" ∈ exPair.sockets ∧
    delivered (step exPair (Input.message "Y" "ice-candidate"
        (Payload.obj [("to", Val.str "X"), ("candidate", Val.blob 5 true)]))) = some [] :=
  ⟨by decide, by decide, by decide⟩

/-! ## C2: the joiner and its own `user:joined` -/

/-- C2 (code evaluated at the failing input): when the only open connection
`A` sends `room:join (email: "a@x.io", room: "r1")`, the relay delivers to `A`
a `user:joined` event carrying `A`'s own id, followed by the `room:join`
echo. -/
theorem joiner_receives_own_user_joined :
    delivered (step exAlone (Input.message "A" "room:join"
        (Payload.obj [("email", Val.str "a@x.io"), ("room", Val.str "r1")]))) =
      some [⟨"A", "user:joined", Payload.obj [("email", Val.str "a@x.io"), ("id", Val.str "A")]⟩,
            ⟨"A", "room:join", Payload.obj [("email", Val.str "a@x.io"), ("room", Val.str "r1")]⟩] := by
  decide

/-! ## C6: payloads lacking required fields -/

/-- C6 (as stated, refuted): an absent payload makes the `user:call` listener
throw, and an empty-object `room:join` is acknowledged to its sender with a
`user:joined` and a `room:join` echo and is recorded in the identity map. -/
theorem malformed_message_not_discarded :
    step exAlone (Input.message "A" "user:call" Payload.undefined) = Except.error Fault.typeError ∧
    delivered (step exAlone (Input.message "A" "room:join" (Payload.obj []))) =
      some [⟨"A", "user:joined", Payload.obj [("email", Val.undefined), ("id", Val.str "A")]⟩,
            ⟨"A", "room:join", Payload.obj []⟩] ∧
    (stateAfter exAlone [Input.message "A" "room:join" (Payload.obj [])]).socketIdToEmailMap =
      [("A", Val.undefined)] ∧
    exAlone.socketIdToEmailMap = [] :=
  ⟨rfl, by decide, by decide, by decide⟩

/-- C6 (amended): on an open connection of a reachable state, (1) an absent
payload (`undefined` or `null`) makes each of the five listeners throw a
`TypeError` at the destructuring, before any map write, join or emit; (2) for
the four peer-to-peer kinds an object payload without `to` returns normally
and leaves the whole state unchanged, and delivers nothing provided no
connection is a member of the room named `undefined`; (3) a `room:join` with
any object payload returns normally and its echo is delivered to the sender. -/
theorem malformed_message_behaviour (st : ServerState) (id : String)
    (hr : Reachable st) (hid : id ∈ st.sockets) :
    (∀ kind ∈ ["room:join", "user:call", "call:accepted", "peer:nego:needed", "peer:nego:done"],
      ∀ data ∈ [Payload.undefined, Payload.null],
        step st (Input.message id kind data) = Except.error Fault.typeError) ∧
    (∀ kind ∈ ["user:call", "call:accepted", "peer:nego:needed", "peer:nego:done"],
      ∀ fields, field fields "to" = Val.undefined → st.rooms Atom.undefined = [] →
        step st (Input.message id kind (Payload.obj fields)) = Except.ok (st, [])) ∧
    (∀ fields, ∃ st' out,
        step st (Input.message id "room:join" (Payload.obj fields)) = Except.ok (st', out) ∧
        (⟨id, "room:join", Payload.obj fields⟩ : Delivery) ∈ out) := by
  refine ⟨?_, ?_, ?_⟩
  · intro kind hk data hd
    simp only [List.mem_cons, List.mem_singleton, List.not_mem_nil, or_false] at hk hd
    rcases hk with hk | hk | hk | hk | hk <;> subst hk <;> rcases hd with hd | hd <;> subst hd <;>
      simp [step, hid, onEvent, onRoomJoin, onUserCall, onCallAccepted, onPeerNegoNeeded,
        onPeerNegoDone]
  · intro kind hk fields hto hroom
    have hio : ioTo st Val.undefined = [] := by
      rw [ioTo_single hr.roomsOk Val.undefined Atom.undefined rfl]; exact hroom
    simp only [List.mem_cons, List.mem_singleton, List.not_mem_nil, or_false] at hk
    rcases hk with hk | hk | hk | hk <;> subst hk
    · rw [step_user_call st id fields hid, hto]; simp [toStringOk, ioToEmit, hio]
    · rw [step_call_accepted st id fields hid, hto]; simp [toStringOk, ioToEmit, hio]
    · rw [step_nego_needed st id fields hid, hto]; simp [ioToEmit, hio]
    · rw [step_nego_done st id fields hid, hto]; simp [ioToEmit, hio]
  · intro fields
    rw [step_room_join st id fields hid]
    refine ⟨_, _, rfl, ?_⟩
    apply List.mem_append_right
    have hr1 := reachable_after_join hr id fields hid
    simp only [ioToEmit, List.mem_map]
    refine ⟨id, ?_, rfl⟩
    rw [ioTo_single hr1.roomsOk (Val.str id) (Atom.str id) rfl]
    exact hr1.roomsOk.1 id hid

/-- Witness for C6 (amended): the connection `A` of the one-connection state. -/
theorem malformed_message_behaviour_witness :
    step exAlone (Input.message "A" "peer:nego:done" Payload.null) = Except.error Fault.typeError ∧
    step exAlone (Input.message "A" "call:accepted" (Payload.obj [("ans", Val.blob 2 true)])) =
      Except.ok (exAlone, []) :=
  ⟨(malformed_message_behaviour exAlone "A" (reachable_stateAfter _ Reachable.init)
      (by decide)).1 "peer:nego:done" (by decide) Payload.null (by decide),
   (malformed_message_behaviour exAlone "A" (reachable_stateAfter _ Reachable.init)
      (by decide)).2.1 "call:accepted" (by decide) [("ans", Val.blob 2 true)] (by decide)
      (by decide)⟩

/-! ## C7: addressee that is not an open connection -/

theorem step_keeps_room_private {st st' : ServerState} {i : Input} {out : List Delivery}
    (k : Atom) (hs : step st i = Except.ok (st', out)) (hi : namesRoom k i = false)
    (h : ∀ m ∈ st.rooms k, k = Atom.str m) : ∀ m ∈ st'.rooms k, k = Atom.str m := by
  cases i with
  | connect id =>
    simp only [step] at hs
    split at hs
    · simp only [Except.ok.injEq, Prod.mk.injEq] at hs
      rw [← hs.1]; exact h
    · simp only [Except.ok.injEq, Prod.mk.injEq] at hs
      rw [← hs.1]
      intro m hm
      rcases (mem_socketJoin _ _ _ _ _).1 hm with h' | h'
      · exact h m h'
      · have := h'.2
        simp only [roomKeys, List.mem_singleton] at this
        rw [this, h'.1]
  | message id event data =>
    simp only [step] at hs
    split at hs
    · rcases onEvent_state hs with h' | ⟨fields, hev, hd, h'⟩
      · rw [h']; exact h
      · subst hev; subst hd
        simp only [namesRoom, true_and, decide_eq_false_iff_not] at hi
        rw [h']
        intro m hm
        rcases (mem_socketJoin _ _ _ _ _).1 hm with h'' | h''
        · exact h m h''
        · exact absurd h''.2 hi
    · simp only [Except.ok.injEq, Prod.mk.injEq] at hs
      rw [← hs.1]; exact h
  | disconnect id =>
    simp only [step, Except.ok.injEq, Prod.mk.injEq] at hs
    rw [← hs.1]
    intro m hm
    change m ∈ leaveAll st.rooms id k at hm
    unfold leaveAll at hm
    exact h m (List.mem_filter.1 hm).1

theorem run_keeps_room_private (k : Atom) (inputs : List Input) {st st' : ServerState}
    (hrun : run st inputs = Except.ok st') (hi : ∀ i ∈ inputs, namesRoom k i = false)
    (h : ∀ m ∈ st.rooms k, k = Atom.str m) : ∀ m ∈ st'.rooms k, k = Atom.str m := by
  induction inputs generalizing st with
  | nil =>
    simp only [run, Except.ok.injEq] at hrun
    rw [← hrun]; exact h
  | cons i rest ih =>
    simp only [run] at hrun
    split at hrun
    · rename_i st1 out hstep
      exact ih hrun (fun j hj => hi j (by simp [hj]))
        (step_keeps_room_private k hstep (hi i (by simp)) h)
    · simp at hrun

/-- C7 (as stated, refuted): in a reachable state with `A`, `B`, `Y` open and
`A`, `B` members of the room `"r1"` created by `room:join`, none of the values
`"r1"`, an empty array, or an object that cannot be converted to a string is
the id of an open connection; yet a `user:call` from `Y` to `"r1"` is delivered
to `A` and `B`, a `peer:nego:needed` to the empty array is delivered to every
open connection, and a `user:call` to the object makes the listener throw. -/
theorem user_call_to_room_name_is_delivered :
    Reachable exRoom ∧ "Y" ∈ exRoom.sockets ∧ (∀ x ∈ exRoom.sockets, Val.str "r1" ≠ Val.str x) ∧
    delivered (step exRoom (Input.message "Y" "user:call"
        (Payload.obj [("to", Val.str "r1"), ("offer", Val.blob 7 true)]))) =
      some [⟨"A", "incoming:call", Payload.obj [("from", Val.str "Y"), ("offer", Val.blob 7 true)]⟩,
            ⟨"B", "incoming:call", Payload.obj [("from", Val.str "Y"), ("offer", Val.blob 7 true)]⟩] ∧
    delivered (step exRoom (Input.message "Y" "peer:nego:needed"
        (Payload.obj [("to", Val.arr 0 []), ("offer", Val.blob 7 true)]))) =
      some [⟨"A", "peer:nego:needed", Payload.obj [("from", Val.str "Y"), ("offer", Val.blob 7 true)]⟩,
            ⟨"B", "peer:nego:needed", Payload.obj [("from", Val.str "Y"), ("offer", Val.blob 7 true)]⟩,
            ⟨"Y", "peer:nego:needed", Payload.obj [("from", Val.str "Y"), ("offer", Val.blob 7 true)]⟩] ∧
    step exRoom (Input.message "Y" "user:call"
        (Payload.obj [("to", Val.blob 9 false), ("offer", Val.blob 7 true)])) =
      Except.error Fault.typeError :=
  ⟨reachable_stateAfter _ Reachable.init, by decide, by decide, by decide, by decide, rfl⟩

/-- C7 (amended): let the relay have handled the inputs `trace` since start,
let `Y` be open, and let the object payload's `to` designate at least one room
(it is not an empty array) such that no room it designates (`to` itself, or
each element when `to` is an array) is the id of an open connection or was
named by the `room` of any `room:join` in `trace`.  Then `peer:nego:needed`
and `peer:nego:done` return normally, deliver nothing to anyone and leave the
whole relay state (identity maps and room membership included) unchanged; and
`user:call` and `call:accepted` do the same when `to` converts to a string,
and otherwise throw a `TypeError` at their log line before emitting. -/
theorem unknown_addressee_dropped (trace : List Input) (st : ServerState) (Y : String)
    (fields : List (String × Val))
    (hrun : run init trace = Except.ok st) (hY : Y ∈ st.sockets)
    (hne : roomKeys (field fields "to") ≠ [])
    (hclosed : ∀ k ∈ roomKeys (field fields "to"), ∀ x ∈ st.sockets, k ≠ Atom.str x)
    (hnever : ∀ k ∈ roomKeys (field fields "to"), ∀ i ∈ trace, namesRoom k i = false) :
    (∀ kind ∈ ["peer:nego:needed", "peer:nego:done"],
      step st (Input.message Y kind (Payload.obj fields)) = Except.ok (st, [])) ∧
    (∀ kind ∈ ["user:call", "call:accepted"],
      step st (Input.message Y kind (Payload.obj fields)) =
        if toStringOk (field fields "to") then Except.ok (st, [])
        else Except.error Fault.typeError) := by
  have hr : Reachable st := reachable_run trace Reachable.init hrun
  have hempty : ∀ k ∈ roomKeys (field fields "to"), st.rooms k = [] := by
    intro k hk
    apply List.eq_nil_iff_forall_not_mem.2
    intro m hm
    have hown := run_keeps_room_private k trace hrun (hnever k hk)
      (by intro m hm; simp [init] at hm) m hm
    exact hclosed k hk m (hr.roomsOk.2.2 k m hm) hown
  have hio : ioTo st (field fields "to") = [] := ioTo_none hne hempty
  refine ⟨?_, ?_⟩
  · intro kind hk
    simp only [List.mem_cons, List.mem_singleton, List.not_mem_nil, or_false] at hk
    rcases hk with hk | hk <;> subst hk
    · rw [step_nego_needed st Y fields hY]; simp [ioToEmit, hio]
    · rw [step_nego_done st Y fields hY]; simp [ioToEmit, hio]
  · intro kind hk
    simp only [List.mem_cons, List.mem_singleton, List.not_mem_nil, or_false] at hk
    rcases hk with hk | hk <;> subst hk
    · rw [step_user_call st Y fields hY]; simp [ioToEmit, hio]
    · rw [step_call_accepted st Y fields hY]; simp [ioToEmit, hio]

/-- Witness for C7 (amended): after `A` and `B` joined `"r1"`, `Y` calls the
id `"gone"`, which no connection has and no `room:join` has named. -/
theorem unknown_addressee_dropped_witness :
    step exRoom (Input.message "Y" "user:call"
      (Payload.obj [("to", Val.str "gone"), ("offer", Val.blob 7 true)])) = Except.ok (exRoom, []) :=
  (unknown_addressee_dropped exRoomTrace exRoom "Y"
    [("to", Val.str "gone"), ("offer", Val.blob 7 true)]
    rfl (by decide) (by decide) (by decide) (by decide)).2 "user:call" (by decide)

/-! ## C9: joining twice -/

theorem length_setAdd_le (l : List String) (id : String) : (setAdd l id).length ≤ l.length + 1 := by
  unfold setAdd
  split <;> simp

theorem socketJoin_socketJoin (rooms : Atom → List String) (v : Val) (id : String) (k : Atom) :
    socketJoin (socketJoin rooms v id) v id k = socketJoin rooms v id k := by
  unfold socketJoin
  split
  · exact setAdd_setAdd _ _
  · rfl

/-- C9: in every reachable state, for every open connection `c` and every
object payload, handling the same `room:join` from `c` twice in a row succeeds
both times and leaves the member list of every room and both identity maps as
they are after the first handling; over the two joins the member count of
each room the payload names grows by at most one, and `c` occurs in its member
list exactly once. -/
theorem join_idempotent (st : ServerState) (c : String) (fields : List (String × Val))
    (hr : Reachable st) (hc : c ∈ st.sockets) :
    ∃ st1 out1 st2 out2,
      step st (Input.message c "room:join" (Payload.obj fields)) = Except.ok (st1, out1) ∧
      step st1 (Input.message c "room:join" (Payload.obj fields)) = Except.ok (st2, out2) ∧
      (∀ k, st2.rooms k = st1.rooms k) ∧
      st2.emailToSocketIdMap = st1.emailToSocketIdMap ∧
      st2.socketIdToEmailMap = st1.socketIdToEmailMap ∧
      (∀ k ∈ roomKeys (field fields "room"),
        (st2.rooms k).length ≤ (st.rooms k).length + 1 ∧ (st2.rooms k).count c = 1) := by
  have h1 := step_room_join st c fields hc
  have hr1 := reachable_after_join hr c fields hc
  refine ⟨_, _, _, _, h1, step_room_join _ c fields hc, ?_, ?_, ?_, ?_⟩
  · intro k
    exact socketJoin_socketJoin _ _ _ _
  · simp [jsMapSet_jsMapSet]
  · simp [jsMapSet_jsMapSet]
  · intro k hk
    show (socketJoin (socketJoin st.rooms (field fields "room") c) (field fields "room") c k).length
        ≤ (st.rooms k).length + 1 ∧
      (socketJoin (socketJoin st.rooms (field fields "room") c) (field fields "room") c k).count c
        = 1
    rw [socketJoin_socketJoin]
    refine ⟨?_, ?_⟩
    · unfold socketJoin
      rw [if_pos hk]
      exact length_setAdd_le _ _
    · apply List.count_eq_one_of_mem
      · exact hr1.roomsOk.2.1 k
      · exact (mem_socketJoin _ _ _ _ _).2 (Or.inr ⟨rfl, hk⟩)

/-- Witness for C9: `A` joins room `"r1"` twice from the one-connection state. -/
theorem join_idempotent_witness :
    ∃ st1 out1 st2 out2,
      step exAlone (Input.message "A" "room:join"
        (Payload.obj [("email", Val.str "a@x.io"), ("room", Val.str "r1")])) = Except.ok (st1, out1) ∧
      step st1 (Input.message "A" "room:join"
        (Payload.obj [("email", Val.str "a@x.io"), ("room", Val.str "r1")])) = Except.ok (st2, out2) ∧
      (∀ k, st2.rooms k = st1.rooms k) ∧
      st2.emailToSocketIdMap = st1.emailToSocketIdMap ∧
      st2.socketIdToEmailMap = st1.socketIdToEmailMap ∧
      (∀ k ∈ [Atom.str "r1"],
        (st2.rooms k).length ≤ (exAlone.rooms k).length + 1 ∧ (st2.rooms k).count "A" = 1) :=
  join_idempotent exAlone "A" [("email", Val.str "a@x.io"), ("room", Val.str "r1")]
    (reachable_stateAfter _ Reachable.init) (by decide)

/-! ## C10: the identity maps are never cleaned -/

theorem step_maps {st st' : ServerState} {i : Input} {out : List Delivery}
    (hs : step st i = Except.ok (st', out)) :
    (st'.emailToSocketIdMap = st.emailToSocketIdMap ∧
      st'.socketIdToEmailMap = st.socketIdToEmailMap) ∨
    (∃ id fields, i = Input.message id "room:join" (Payload.obj fields) ∧
      st'.emailToSocketIdMap = jsMapSet st.emailToSocketIdMap (field fields "email") id ∧
      st'.socketIdToEmailMap = jsMapSet st.socketIdToEmailMap id (field fields "email")) := by
  cases i with
  | connect id =>
    left
    simp only [step] at hs
    split at hs <;> simp only [Except.ok.injEq, Prod.mk.injEq] at hs <;> rw [← hs.1] <;>
      exact ⟨rfl, rfl⟩
  | message id event data =>
    simp only [step] at hs
    split at hs
    · rcases onEvent_state hs with h | ⟨fields, hev, hd, h⟩
      · left
        rw [h]; exact ⟨rfl, rfl⟩
      · right
        subst hev; subst hd
        refine ⟨id, fields, rfl, ?_, ?_⟩ <;> rw [h]
    · left
      simp only [Except.ok.injEq, Prod.mk.injEq] at hs
      rw [← hs.1]; exact ⟨rfl, rfl⟩
  | disconnect id =>
    left
    simp only [step, Except.ok.injEq, Prod.mk.injEq] at hs
    rw [← hs.1]; exact ⟨rfl, rfl⟩

theorem step_keeps_entry {st st' : ServerState} {i : Input} {out : List Delivery}
    (c : String) (e : Val) (hs : step st i = Except.ok (st', out)) (hi : rejoins c e i = false) :
    jsMapFind st'.emailToSocketIdMap e = jsMapFind st.emailToSocketIdMap e ∧
    jsMapFind st'.socketIdToEmailMap c = jsMapFind st.socketIdToEmailMap c := by
  rcases step_maps hs with h | ⟨id, fields, hmsg, h1, h2⟩
  · rw [h.1, h.2]; exact ⟨rfl, rfl⟩
  · subst hmsg
    simp only [rejoins, true_and, decide_eq_false_iff_not, not_or] at hi
    rw [h1, h2, jsMapFind_jsMapSet, jsMapFind_jsMapSet, if_neg hi.2, if_neg hi.1]
    exact ⟨rfl, rfl⟩

theorem run_keeps_entry (c : String) (e : Val) (inputs : List Input) {st st' : ServerState}
    (hrun : run st inputs = Except.ok st') (hi : ∀ i ∈ inputs, rejoins c e i = false) :
    jsMapFind st'.emailToSocketIdMap e = jsMapFind st.emailToSocketIdMap e ∧
    jsMapFind st'.socketIdToEmailMap c = jsMapFind st.socketIdToEmailMap c := by
  induction inputs generalizing st with
  | nil =>
    simp only [run, Except.ok.injEq] at hrun
    rw [← hrun]; exact ⟨rfl, rfl⟩
  | cons i rest ih =>
    simp only [run] at hrun
    split at hrun
    · rename_i st1 out hstep
      have h1 := step_keeps_entry c e hstep (hi i (by simp))
      have h2 := ih hrun (fun j hj => hi j (by simp [hj]))
      rw [h2.1, h2.2, h1.1, h1.2]; exact ⟨rfl, rfl⟩
    · simp at hrun

/-- C10: (1) for every state and every input the relay handles (`connect`,
any message, `disconnect`), every key of `emailToSocketIdMap` and every key of
`socketIdToEmailMap` present before the transition is present after it;
(2) if the open connection `c` joins with email `e`, and no later input is a
`room:join` from `c` or with email `e`, then after any such inputs followed by
the disconnect of `c`, `emailToSocketIdMap.get(e)` is still `c` and
`socketIdToEmailMap.get(c)` is still `e`. -/
theorem identity_maps_never_cleaned :
    (∀ (st st' : ServerState) (i : Input) (out : List Delivery),
      step st i = Except.ok (st', out) →
        (∀ e, (jsMapFind st.emailToSocketIdMap e).isSome →
          (jsMapFind st'.emailToSocketIdMap e).isSome) ∧
        (∀ s, (jsMapFind st.socketIdToEmailMap s).isSome →
          (jsMapFind st'.socketIdToEmailMap s).isSome)) ∧
    (∀ (st st1 st2 : ServerState) (c : String) (fields : List (String × Val))
        (out1 : List Delivery) (later : List Input),
      c ∈ st.sockets →
      step st (Input.message c "room:join" (Payload.obj fields)) = Except.ok (st1, out1) →
      (∀ i ∈ later, rejoins c (field fields "email") i = false) →
      run st1 (later ++ [Input.disconnect c]) = Except.ok st2 →
        emailToSocketIdMap_get st2 (field fields "email") = Val.str c ∧
        socketIdToEmailMap_get st2 c = field fields "email") := by
  refine ⟨?_, ?_⟩
  · intro st st' i out hs
    rcases step_maps hs with h | ⟨id, fields, _, h1, h2⟩
    · rw [h.1, h.2]; exact ⟨fun _ h => h, fun _ h => h⟩
    · rw [h1, h2]
      refine ⟨?_, ?_⟩
      · intro e he
        rw [jsMapFind_jsMapSet]
        split
        · rfl
        · exact he
      · intro s hs'
        rw [jsMapFind_jsMapSet]
        split
        · rfl
        · exact hs'
  · intro st st1 st2 c fields out1 later hc hjoin hlater hrun
    have hkeep := run_keeps_entry c (field fields "email") (later ++ [Input.disconnect c]) hrun
      (by
        intro i hi
        rcases List.mem_append.1 hi with h | h
        · exact hlater i h
        · simp only [List.mem_singleton] at h
          subst h; rfl)
    rw [step_room_join st c fields hc] at hjoin
    simp only [onRoomJoin, Except.ok.injEq, Prod.mk.injEq] at hjoin
    have hst1 := hjoin.1
    have hE : jsMapFind st1.emailToSocketIdMap (field fields "email") = some c := by
      rw [← hst1]; simp [jsMapFind_jsMapSet]
    have hS : jsMapFind st1.socketIdToEmailMap c = some (field fields "email") := by
      rw [← hst1]; simp [jsMapFind_jsMapSet]
    simp only [emailToSocketIdMap_get, socketIdToEmailMap_get, hkeep.1, hkeep.2, hE, hS,
      and_self]

/-- Witness for C10: `A` joins, `B` calls, `A` disconnects; both entries for
`A` are still in the maps. -/
theorem identity_maps_never_cleaned_witness :
    emailToSocketIdMap_get
        (stateAfter init
          [Input.connect "A", Input.connect "B",
           Input.message "A" "room:join"
             (Payload.obj [("email", Val.str "a@x.io"), ("room", Val.str "r1")]),
           Input.message "B" "user:call" (Payload.obj [("to", Val.str "A"), ("offer", Val.blob 1 true)]),
           Input.disconnect "A"])
        (Val.str "a@x.io") = Val.str "A" ∧
    socketIdToEmailMap_get
        (stateAfter init
          [Input.connect "A", Input.connect "B",
           Input.message "A" "room:join"
             (Payload.obj [("email", Val.str "a@x.io"), ("room", Val.str "r1")]),
           Input.message "B" "user:call" (Payload.obj [("to", Val.str "A"), ("offer", Val.blob 1 true)]),
           Input.disconnect "A"])
        "A" = Val.str "a@x.io" :=
  identity_maps_never_cleaned.2
    (stateAfter init [Input.connect "A", Input.connect "B"])
    (stateAfter init
      [Input.connect "A", Input.connect "B",
       Input.message "A" "room:join"
         (Payload.obj [("email", Val.str "a@x.io"), ("room", Val.str "r1")])])
    _ "A" [("email", Val.str "a@x.io"), ("room", Val.str "r1")]
    [⟨"A", "user:joined", Payload.obj [("email", Val.str "a@x.io"), ("id", Val.str "A")]⟩,
     ⟨"A", "room:join", Payload.obj [("email", Val.str "a@x.io"), ("room", Val.str "r1")]⟩]
    [Input.message "B" "user:call" (Payload.obj [("to", Val.str "A"), ("offer", Val.blob 1 true)])]
    (by decide) rfl (by decide) rfl

/-! ## C4: consistency of the two identity maps -/

/-- C4 (as stated, refuted): after one connection joins with two emails the
first email still maps to the connection while the connection maps to the
second email; after two connections join with one email the first connection
still maps to the email while the email maps to the second connection. -/
theorem identity_maps_not_mutually_inverse :
    (Reachable exRename ∧
      emailToSocketIdMap_get exRename (Val.str "old@x.io") = Val.str "C" ∧
      socketIdToEmailMap_get exRename "C" = Val.str "new@x.io") ∧
    (Reachable exShared ∧
      socketIdToEmailMap_get exShared "C1" = Val.str "e@x.io" ∧
      emailToSocketIdMap_get exShared (Val.str "e@x.io") = Val.str "C2") :=
  ⟨⟨reachable_stateAfter _ Reachable.init, by decide, by decide⟩,
   ⟨reachable_stateAfter _ Reachable.init, by decide, by decide⟩⟩

theorem run_joins_mapsHold (js : List (String × Val × Val)) :
    ∀ (hist : List (String × Val × Val)) (st : ServerState),
      MapsHold st hist →
      (∀ j ∈ js, j.1 ∈ st.sockets) →
      (∀ p ∈ hist ++ js, ∀ q ∈ hist ++ js, (p.1 = q.1 ↔ p.2.1 = q.2.1)) →
      ∃ st', run st (joinInputs js) = Except.ok st' ∧ MapsHold st' (hist ++ js) := by
  induction js with
  | nil =>
    intro hist st hm _ _
    exact ⟨st, rfl, by simpa using hm⟩
  | cons j rest ih =>
    intro hist st hm hopen hbij
    obtain ⟨c, e, r⟩ := j
    have hc : c ∈ st.sockets := hopen (c, e, r) (by simp)
    have hstep := step_room_join st c [("email", e), ("room", r)] hc
    have he : field [("email", e), ("room", r)] "email" = e := by simp [field]
    have hjmem : (c, e, r) ∈ hist ++ (c, e, r) :: rest := by simp
    simp only [onRoomJoin, he] at hstep
    have hm1 : MapsHold
        { st with
          emailToSocketIdMap := jsMapSet st.emailToSocketIdMap e c
          socketIdToEmailMap := jsMapSet st.socketIdToEmailMap c e
          rooms := socketJoin st.rooms (field [("email", e), ("room", r)] "room") c }
        (hist ++ [(c, e, r)]) := by
      refine ⟨?_, ?_⟩
      · intro e' s
        show jsMapFind (jsMapSet st.emailToSocketIdMap e c) e' = some s ↔ _
        rw [jsMapFind_jsMapSet]
        by_cases hee : e = e'
        · subst hee
          rw [if_pos rfl, Option.some.injEq]
          constructor
          · intro h
            subst h
            exact ⟨r, by simp⟩
          · rintro ⟨r', h⟩
            rcases List.mem_append.1 h with h | h
            · have := (hbij (s, e, r') (by simp [h]) (c, e, r) hjmem).2 rfl
              exact this.symm
            · simp only [List.mem_singleton, Prod.mk.injEq] at h
              exact h.1.symm
        · simp only [if_neg hee, hm.1 e' s, List.mem_append, List.mem_singleton, Prod.mk.injEq]
          constructor
          · rintro ⟨r', h⟩; exact ⟨r', Or.inl h⟩
          · rintro ⟨r', h | h⟩
            · exact ⟨r', h⟩
            · exact absurd h.2.1.symm hee
      · intro s e'
        show jsMapFind (jsMapSet st.socketIdToEmailMap c e) s = some e' ↔ _
        rw [jsMapFind_jsMapSet]
        by_cases hcs : c = s
        · subst hcs
          rw [if_pos rfl, Option.some.injEq]
          constructor
          · intro h
            subst h
            exact ⟨r, by simp⟩
          · rintro ⟨r', h⟩
            rcases List.mem_append.1 h with h | h
            · have := (hbij (c, e', r') (by simp [h]) (c, e, r) hjmem).1 rfl
              exact this.symm
            · simp only [List.mem_singleton, Prod.mk.injEq] at h
              exact h.2.1.symm
        · simp only [if_neg hcs, hm.2 s e', List.mem_append, List.mem_singleton, Prod.mk.injEq]
          constructor
          · rintro ⟨r', h⟩; exact ⟨r', Or.inl h⟩
          · rintro ⟨r', h | h⟩
            · exact ⟨r', h⟩
            · exact absurd h.1.symm hcs
    obtain ⟨st', hrun, hm'⟩ := ih (hist ++ [(c, e, r)]) _ hm1
      (fun j hj => hopen j (by simp [hj]))
      (by simpa using hbij)
    refine ⟨st', ?_, by simpa using hm'⟩
    show run st (Input.message c "room:join" (joinPayload e r) :: joinInputs rest) = _
    simp only [run, joinPayload, hstep]
    exact hrun

/-- C4 (amended): starting from empty identity maps, after any sequence of
`room:join` messages from open connections in which no connection joins with
two different emails and no email is used by two different connections, for
every email `e` (other than `undefined`) and every connection id `s`:
`emailToSocketIdMap.get(e) = s` if and only if `socketIdToEmailMap.get(s) = e`. -/
theorem identity_maps_consistent (st0 : ServerState) (js : List (String × Val × Val))
    (hE : st0.emailToSocketIdMap = []) (hS : st0.socketIdToEmailMap = [])
    (hopen : ∀ j ∈ js, j.1 ∈ st0.sockets)
    (hbij : ∀ p ∈ js, ∀ q ∈ js, (p.1 = q.1 ↔ p.2.1 = q.2.1)) :
    ∃ st, run st0 (joinInputs js) = Except.ok st ∧
      ∀ (e : Val) (s : String), e ≠ Val.undefined →
        (emailToSocketIdMap_get st e = Val.str s ↔ socketIdToEmailMap_get st s = e) := by
  have hm0 : MapsHold st0 [] := by
    refine ⟨?_, ?_⟩
    · intro e s; rw [hE]; simp [jsMapFind]
    · intro s e; rw [hS]; simp [jsMapFind]
  obtain ⟨st, hrun, hm⟩ := run_joins_mapsHold js [] st0 hm0 hopen (by simpa using hbij)
  refine ⟨st, hrun, ?_⟩
  intro e s he
  have h1 : emailToSocketIdMap_get st e = Val.str s ↔
      jsMapFind st.emailToSocketIdMap e = some s := by
    unfold emailToSocketIdMap_get
    cases jsMapFind st.emailToSocketIdMap e <;> simp
  have h2 : socketIdToEmailMap_get st s = e ↔ jsMapFind st.socketIdToEmailMap s = some e := by
    unfold socketIdToEmailMap_get
    cases h : jsMapFind st.socketIdToEmailMap s with
    | none =>
      simp only [reduceCtorEq, iff_false]
      exact fun h' => he h'.symm
    | some v => simp
  rw [h1, h2, hm.1 e s, hm.2 s e]

/-- Witness for C4 (amended): `C1` joins as `"a@x.io"`, `C2` as `"b@x.io"`, and
`C1` joins again with the same email. -/
theorem identity_maps_consistent_witness :
    ∃ st, run (stateAfter init [Input.connect "C1", Input.connect "C2"])
        (joinInputs [("C1", Val.str "a@x.io", Val.str "r1"), ("C2", Val.str "b@x.io", Val.str "r1"),
          ("C1", Val.str "a@x.io", Val.str "r2")]) = Except.ok st ∧
      ∀ (e : Val) (s : String), e ≠ Val.undefined →
        (emailToSocketIdMap_get st e = Val.str s ↔ socketIdToEmailMap_get st s = e) :=
  identity_maps_consistent (stateAfter init [Input.connect "C1", Input.connect "C2"])
    [("C1", Val.str "a@x.io", Val.str "r1"), ("C2", Val.str "b@x.io", Val.str "r1"),
      ("C1", Val.str "a@x.io", Val.str "r2")]
    (by decide) (by decide) (by decide) (by decide)

/-! ## C3: join fan-out and echo -/

theorem run_connects (r : Atom) (ids : List String) :
    ∀ st, RoomsAre r [] st → ∃ st', run st (ids.map Input.connect) = Except.ok st' ∧
      RoomsAre r [] st' ∧ (∀ x, x ∈ st'.sockets ↔ x ∈ st.sockets ∨ x ∈ ids) := by
  induction ids with
  | nil =>
    intro st h
    exact ⟨st, rfl, h, fun x => by simp⟩
  | cons id rest ih =>
    intro st h
    by_cases hid : id ∈ st.sockets
    · obtain ⟨st', hrun, hk, hs⟩ := ih st h
      refine ⟨st', ?_, hk, ?_⟩
      · simp only [List.map_cons, run, step, if_pos hid]
        exact hrun
      · intro x
        rw [hs x, List.mem_cons]
        constructor
        · rintro (h' | h')
          · exact Or.inl h'
          · exact Or.inr (Or.inr h')
        · rintro (h' | h' | h')
          · exact Or.inl h'
          · rw [h']; exact Or.inl hid
          · exact Or.inr h'
    · have h1 : RoomsAre r []
          { st with sockets := st.sockets ++ [id],
                    rooms := socketJoin st.rooms (Val.str id) id } := by
        intro k m
        show m ∈ socketJoin st.rooms (Val.str id) id k ↔
          m ∈ st.sockets ++ [id] ∧ (k = Atom.str m ∨ (k = r ∧ m ∈ []))
        rw [mem_socketJoin, h k m]
        simp only [roomKeys, List.mem_singleton, List.mem_append, List.not_mem_nil, and_false,
          or_false]
        constructor
        · rintro (h' | h')
          · exact ⟨Or.inl h'.1, h'.2⟩
          · exact ⟨Or.inr h'.1, by rw [h'.2, h'.1]⟩
        · rintro ⟨h' | h', hk⟩
          · exact Or.inl ⟨h', hk⟩
          · exact Or.inr ⟨h', by rw [hk, h']⟩
      obtain ⟨st', hrun, hk, hs⟩ := ih _ h1
      refine ⟨st', ?_, hk, ?_⟩
      · simp only [List.map_cons, run, step, if_neg hid]
        exact hrun
      · intro x
        rw [hs x]
        show x ∈ st.sockets ++ [id] ∨ x ∈ rest ↔ x ∈ st.sockets ∨ x ∈ id :: rest
        simp only [List.mem_append, List.mem_singleton, List.mem_cons]
        tauto

theorem run_joinMessages (r : Atom) (js : List (String × List (String × Val))) :
    ∀ (joined : List String) (st : ServerState), RoomsAre r joined st →
      (∀ j ∈ js, roomKeys (field j.2 "room") = [r]) →
      ∃ st', run st (joinMessages js) = Except.ok st' ∧
        RoomsAre r (joined ++ js.map Prod.fst) st' ∧ st'.sockets = st.sockets := by
  induction js with
  | nil =>
    intro joined st h _
    exact ⟨st, rfl, by simpa using h, rfl⟩
  | cons j rest ih =>
    intro joined st h hroom
    obtain ⟨c, D⟩ := j
    have hD : roomKeys (field D "room") = [r] := hroom (c, D) (by simp)
    by_cases hc : c ∈ st.sockets
    · have h1 : RoomsAre r (joined ++ [c])
          { st with
            emailToSocketIdMap := jsMapSet st.emailToSocketIdMap (field D "email") c
            socketIdToEmailMap := jsMapSet st.socketIdToEmailMap c (field D "email")
            rooms := socketJoin st.rooms (field D "room") c } := by
        intro k m
        show m ∈ socketJoin st.rooms (field D "room") c k ↔
          m ∈ st.sockets ∧ (k = Atom.str m ∨ (k = r ∧ m ∈ joined ++ [c]))
        rw [mem_socketJoin, h k m, hD]
        simp only [List.mem_singleton, List.mem_append]
        constructor
        · rintro (⟨hm, h' | h'⟩ | h')
          · exact ⟨hm, Or.inl h'⟩
          · exact ⟨hm, Or.inr ⟨h'.1, Or.inl h'.2⟩⟩
          · exact ⟨by rw [h'.1]; exact hc, Or.inr ⟨h'.2, Or.inr h'.1⟩⟩
        · rintro ⟨hm, h' | ⟨hk, h' | h'⟩⟩
          · exact Or.inl ⟨hm, Or.inl h'⟩
          · exact Or.inl ⟨hm, Or.inr ⟨hk, h'⟩⟩
          · exact Or.inr ⟨h', hk⟩
      obtain ⟨st', hrun, hk, hs⟩ := ih (joined ++ [c]) _ h1
        (fun j hj => hroom j (by simp [hj]))
      refine ⟨st', ?_, by simpa using hk, hs⟩
      show run st (Input.message c "room:join" (Payload.obj D) :: joinMessages rest) = _
      simp only [run, step_room_join st c D hc, onRoomJoin]
      exact hrun
    · have h1 : RoomsAre r (joined ++ [c]) st := by
        intro k m
        rw [h k m]
        simp only [List.mem_append, List.mem_singleton]
        constructor
        · rintro ⟨hm, h' | h'⟩
          · exact ⟨hm, Or.inl h'⟩
          · exact ⟨hm, Or.inr ⟨h'.1, Or.inl h'.2⟩⟩
        · rintro ⟨hm, h' | ⟨hk, h' | h'⟩⟩
          · exact ⟨hm, Or.inl h'⟩
          · exact ⟨hm, Or.inr ⟨hk, h'⟩⟩
          · exact absurd (by rw [← h']; exact hm) hc
      obtain ⟨st', hrun, hk, hs⟩ := ih (joined ++ [c]) st h1
        (fun j hj => hroom j (by simp [hj]))
      refine ⟨st', ?_, by simpa using hk, hs⟩
      show run st (Input.message c "room:join" (Payload.obj D) :: joinMessages rest) = _
      simp only [run, step, if_neg hc]
      exact hrun

theorem run_append (a b : List Input) : ∀ (st st1 st2 : ServerState),
    run st a = Except.ok st1 → run st1 b = Except.ok st2 → run st (a ++ b) = Except.ok st2 := by
  induction a with
  | nil =>
    intro st st1 st2 h1 h2
    simp only [run, Except.ok.injEq] at h1
    rw [h1]; exact h2
  | cons i rest ih =>
    intro st st1 st2 h1 h2
    simp only [List.cons_append, run] at h1 ⊢
    cases hstep : step st i with
    | error e => simp [hstep] at h1
    | ok p =>
      obtain ⟨st', out⟩ := p
      simp only [hstep] at h1 ⊢
      exact ih st' st1 st2 h1 h2

theorem filter_map_delivery (l : List String) (m : String) (event other : String)
    (payload : Payload) (hnd : l.Nodup) :
    ((l.map (fun x => ({ recipient := x, event := event, payload := payload } : Delivery))).filter
      (fun d => decide (d.recipient = m ∧ d.event = other))) =
    if m ∈ l ∧ event = other then [{ recipient := m, event := event, payload := payload }]
    else [] := by
  induction l with
  | nil => simp
  | cons a rest ih =>
    rw [List.nodup_cons] at hnd
    rw [List.map_cons, List.filter_cons, ih hnd.2]
    by_cases hev : event = other
    · by_cases ham : a = m
      · subst ham
        simp [hev, hnd.1]
      · have : ¬ m = a := fun h => ham h.symm
        simp [hev, ham, this]
    · simp [hev]

/-- What the `room:join` listener delivers when the payload names one room. -/
theorem room_join_deliveries {st : ServerState} (hr : Reachable st) (J : String)
    (D : List (String × Val)) (r : Atom) (hJ : J ∈ st.sockets)
    (hD : roomKeys (field D "room") = [r]) :
    ∃ st1 out,
      step st (Input.message J "room:join" (Payload.obj D)) = Except.ok (st1, out) ∧
      out =
        (st1.rooms r).map (fun x =>
            (⟨x, "user:joined", Payload.obj [("email", field D "email"), ("id", Val.str J)]⟩ :
              Delivery)) ++
          (st1.rooms (Atom.str J)).map (fun x =>
            (⟨x, "room:join", Payload.obj D⟩ : Delivery)) ∧
      (∀ k m, m ∈ st1.rooms k ↔ m ∈ st.rooms k ∨ (m = J ∧ k = r)) ∧
      (∀ k, (st1.rooms k).Nodup) := by
  have hr1 := reachable_after_join hr J D hJ
  have hio1 := ioTo_single hr1.roomsOk (field D "room") r hD
  have hio2 := ioTo_single hr1.roomsOk (Val.str J) (Atom.str J) rfl
  refine ⟨_, _, step_room_join st J D hJ, ?_, ?_, hr1.roomsOk.2.1⟩
  · simp only [ioToEmit, hio1, hio2]
  · intro k m
    show m ∈ socketJoin st.rooms (field D "room") J k ↔ _
    rw [mem_socketJoin, hD, List.mem_singleton]

/-- C3: let the connections `ids` be opened and then any sequence `earlier` of
`room:join` messages, all naming the same room `r`, be handled (the senders
need not even be distinct).  Then the members of `r` are exactly the open
connections that sent one of those joins (and the connection whose id is `r`,
if any).  When the open connection `J` then sends `room:join` with an object
payload `D` naming room `r`, the listener succeeds and: every open connection
that joined earlier, like every member of `r`, is delivered exactly one
`user:joined` event, equal to `(email: D.email, id: J)`; `J` is delivered
exactly one `room:join` event, with payload `D` unchanged; and every delivery
goes to a connection that was a member of `r` or is `J`. -/
theorem join_fanout_and_echo (ids : List String) (r : Atom)
    (earlier : List (String × List (String × Val))) (J : String) (D : List (String × Val))
    (hJ : J ∈ ids) (hroom : ∀ j ∈ earlier, roomKeys (field j.2 "room") = [r])
    (hD : roomKeys (field D "room") = [r]) :
    ∃ st st' out,
      run init (ids.map Input.connect ++ joinMessages earlier) = Except.ok st ∧
      step st (Input.message J "room:join" (Payload.obj D)) = Except.ok (st', out) ∧
      (∀ m, m ∈ st.rooms r ↔ m ∈ ids ∧ (r = Atom.str m ∨ m ∈ earlier.map Prod.fst)) ∧
      (∀ j ∈ earlier, j.1 ∈ ids →
        out.filter (fun d => decide (d.recipient = j.1 ∧ d.event = "user:joined")) =
          [⟨j.1, "user:joined", Payload.obj [("email", field D "email"), ("id", Val.str J)]⟩]) ∧
      (∀ m ∈ st.rooms r,
        out.filter (fun d => decide (d.recipient = m ∧ d.event = "user:joined")) =
          [⟨m, "user:joined", Payload.obj [("email", field D "email"), ("id", Val.str J)]⟩]) ∧
      out.filter (fun d => decide (d.recipient = J ∧ d.event = "room:join")) =
        [⟨J, "room:join", Payload.obj D⟩] ∧
      (∀ d ∈ out, d.recipient ∈ st.rooms r ∨ d.recipient = J) := by
  have h0 : RoomsAre r [] init := by
    intro k m
    simp [init]
  obtain ⟨sa, hra, hka, hsa⟩ := run_connects r ids init h0
  obtain ⟨st, hrb, hk, hsb⟩ := run_joinMessages r earlier [] sa hka hroom
  have hrun := run_append _ _ _ _ _ hra hrb
  have hreach : Reachable st := reachable_run _ Reachable.init hrun
  have hsock : ∀ x, x ∈ st.sockets ↔ x ∈ ids := by
    intro x
    rw [hsb, hsa x]
    simp [init]
  have hJs : J ∈ st.sockets := (hsock J).2 hJ
  have hmembers : ∀ m, m ∈ st.rooms r ↔ m ∈ ids ∧ (r = Atom.str m ∨ m ∈ earlier.map Prod.fst) := by
    intro m
    rw [hk r m, hsock m]
    simp
  obtain ⟨st1, out, hstep, hout, hmem1, hnd⟩ := room_join_deliveries hreach J D r hJs hD
  subst hout
  have hfan : ∀ m ∈ st.rooms r,
      List.filter (fun d => decide (d.recipient = m ∧ d.event = "user:joined"))
        ((st1.rooms r).map (fun x =>
            (⟨x, "user:joined", Payload.obj [("email", field D "email"), ("id", Val.str J)]⟩ :
              Delivery)) ++
          (st1.rooms (Atom.str J)).map (fun x =>
            (⟨x, "room:join", Payload.obj D⟩ : Delivery))) =
      [⟨m, "user:joined", Payload.obj [("email", field D "email"), ("id", Val.str J)]⟩] := by
    intro m hm
    rw [List.filter_append, filter_map_delivery _ m "user:joined" "user:joined" _ (hnd _),
      filter_map_delivery _ m "room:join" "user:joined" _ (hnd _)]
    have : m ∈ st1.rooms r := (hmem1 r m).2 (Or.inl hm)
    simp [this]
  refine ⟨st, st1, _, hrun, hstep, hmembers, ?_, hfan, ?_, ?_⟩
  · intro j hj hopen
    apply hfan
    rw [hmembers]
    exact ⟨hopen, Or.inr (List.mem_map.2 ⟨j, hj, rfl⟩)⟩
  · rw [List.filter_append, filter_map_delivery _ J "user:joined" "room:join" _ (hnd _),
      filter_map_delivery _ J "room:join" "room:join" _ (hnd _)]
    have : J ∈ st1.rooms (Atom.str J) := (hmem1 _ J).2 (Or.inl (hreach.roomsOk.1 J hJs))
    simp [this]
  · intro d hd
    rcases List.mem_append.1 hd with hd | hd
    · simp only [List.mem_map] at hd
      obtain ⟨m, hm, rfl⟩ := hd
      show m ∈ st.rooms r ∨ m = J
      rcases (hmem1 r m).1 hm with h | h
      · exact Or.inl h
      · exact Or.inr h.1
    · simp only [List.mem_map] at hd
      obtain ⟨m, hm, rfl⟩ := hd
      show m ∈ st.rooms r ∨ m = J
      rcases (hmem1 _ m).1 hm with h | h
      · rcases ((hk _ m).1 h).2 with h' | h'
        · right
          simp only [Atom.str.injEq] at h'
          exact h'.symm
        · left
          rw [← h'.1]; exact h
      · exact Or.inr h.1

/-- Witness for C3: `A`, `B`, `C` connect, `A` then `B` join `"r1"`, and `C`
joins `"r1"`. -/
theorem join_fanout_and_echo_witness :
    ∃ st st' out,
      run init (["A", "B", "C"].map Input.connect ++ joinMessages
        [("A", [("email", Val.str "a@x.io"), ("room", Val.str "r1")]),
         ("B", [("email", Val.str "b@x.io"), ("room", Val.str "r1")])]) = Except.ok st ∧
      step st (Input.message "C" "room:join"
        (Payload.obj [("email", Val.str "c@x.io"), ("room", Val.str "r1")])) = Except.ok (st', out) ∧
      (∀ m, m ∈ st.rooms (Atom.str "r1") ↔
        m ∈ ["A", "B", "C"] ∧ (Atom.str "r1" = Atom.str m ∨ m ∈ ["A", "B"])) ∧
      (∀ j ∈ [("A", [("email", Val.str "a@x.io"), ("room", Val.str "r1")]),
              ("B", [("email", Val.str "b@x.io"), ("room", Val.str "r1")])],
        j.1 ∈ ["A", "B", "C"] →
        out.filter (fun d => decide (d.recipient = j.1 ∧ d.event = "user:joined")) =
          [⟨j.1, "user:joined", Payload.obj [("email", Val.str "c@x.io"), ("id", Val.str "C")]⟩]) ∧
      (∀ m ∈ st.rooms (Atom.str "r1"),
        out.filter (fun d => decide (d.recipient = m ∧ d.event = "user:joined")) =
          [⟨m, "user:joined", Payload.obj [("email", Val.str "c@x.io"), ("id", Val.str "C")]⟩]) ∧
      out.filter (fun d => decide (d.recipient = "C" ∧ d.event = "room:join")) =
        [⟨"C", "room:join", Payload.obj [("email", Val.str "c@x.io"), ("room", Val.str "r1")]⟩] ∧
      (∀ d ∈ out, d.recipient ∈ st.rooms (Atom.str "r1") ∨ d.recipient = "C") :=
  join_fanout_and_echo ["A", "B", "C"] (Atom.str "r1")
    [("A", [("email", Val.str "a@x.io"), ("room", Val.str "r1")]),
     ("B", [("email", Val.str "b@x.io"), ("room", Val.str "r1")])]
    "C" [("email", Val.str "c@x.io"), ("room", Val.str "r1")]
    (by decide) (by decide) (by decide)

end Relay
